import Mathlib

/-!
Verification of the ZeroEnv core (`src/zeroenv/crypto.py` and
`src/zeroenv/storage.py`): a shallow embedding in Lean 4.

Conventions of the embedding:
* a Python `bytes` value is a `List Nat` whose elements are below 256;
* `os.urandom` is modelled by an explicit random byte stream (`Rng`)
  threaded through the operations that draw randomness;
* fallible Python code (code that raises) returns `Except PyErr`;
* the external `cryptography` library primitives (AES-256-GCM, PBKDF2)
  are modelled by executable functions that keep the structural
  properties the ZeroEnv code relies on (documented at each definition);
* the filesystem is a pair of optional file contents, and every write
  performed by `storage.py` is also recorded in a trace of `FsOp`
  events, so that claims about *how* the files are written (in place
  versus atomic replace) can be stated.
-/

set_option maxHeartbeats 1000000

namespace ZeroEnv

/-- Decidable equality for `Except`, needed to evaluate concrete results. -/
instance {ε α : Type} [DecidableEq ε] [DecidableEq α] : DecidableEq (Except ε α)
  | .ok x, .ok y =>
    if h : x = y then .isTrue (h ▸ rfl) else .isFalse (fun hc => h (Except.ok.inj hc))
  | .error x, .error y =>
    if h : x = y then .isTrue (h ▸ rfl) else .isFalse (fun hc => h (Except.error.inj hc))
  | .ok _, .error _ => .isFalse (fun hc => Except.noConfusion hc)
  | .error _, .ok _ => .isFalse (fun hc => Except.noConfusion hc)

/-! ## Byte-list arithmetic helpers -/

/-- The value of a byte list, least significant byte first. -/
def bytesToNat : List Nat → Nat
  | [] => 0
  | b :: bs => b + 256 * bytesToNat bs

/-- The low `n` bytes of a natural number, least significant byte first. -/
def natToBytesLE : Nat → Nat → List Nat
  | 0, _ => []
  | n + 1, t => t % 256 :: natToBytesLE n (t / 256)

theorem bytesToNat_lt : ∀ (bs : List Nat), (∀ b ∈ bs, b < 256) → bytesToNat bs < 256 ^ bs.length := by
  intro bs
  induction bs with
  | nil => intro _; simp [bytesToNat]
  | cons b bs ih =>
    intro h
    have hb : b < 256 := h b (List.mem_cons_self b bs)
    have ht : bytesToNat bs < 256 ^ bs.length := ih (fun x hx => h x (List.mem_cons_of_mem b hx))
    simp only [bytesToNat, List.length_cons, pow_succ]
    calc b + 256 * bytesToNat bs < 256 + 256 * bytesToNat bs := by omega
    _ ≤ 256 * (bytesToNat bs + 1) := by ring_nf; omega
    _ ≤ 256 * 256 ^ bs.length := by
        have : bytesToNat bs + 1 ≤ 256 ^ bs.length := ht
        exact Nat.mul_le_mul_left 256 this
    _ = 256 ^ bs.length * 256 := by ring

theorem bytesToNat_inj : ∀ (bs1 bs2 : List Nat), bs1.length = bs2.length →
    (∀ b ∈ bs1, b < 256) → (∀ b ∈ bs2, b < 256) →
    bytesToNat bs1 = bytesToNat bs2 → bs1 = bs2 := by
  intro bs1
  induction bs1 with
  | nil =>
    intro bs2 hlen _ _ _
    cases bs2 with
    | nil => rfl
    | cons b bs => simp at hlen
  | cons b1 t1 ih =>
    intro bs2 hlen h1 h2 hv
    cases bs2 with
    | nil => simp at hlen
    | cons b2 t2 =>
      have hb1 : b1 < 256 := h1 b1 (List.mem_cons_self b1 t1)
      have hb2 : b2 < 256 := h2 b2 (List.mem_cons_self b2 t2)
      simp only [bytesToNat] at hv
      have hb : b1 = b2 := by omega
      have ht : bytesToNat t1 = bytesToNat t2 := by omega
      have := ih t2 (by simpa using hlen) (fun x hx => h1 x (List.mem_cons_of_mem b1 hx))
        (fun x hx => h2 x (List.mem_cons_of_mem b2 hx)) ht
      rw [hb, this]

theorem bytesToNat_natToBytesLE : ∀ (n t : Nat), bytesToNat (natToBytesLE n t) = t % 256 ^ n := by
  intro n
  induction n with
  | zero => intro t; simp [natToBytesLE, bytesToNat, Nat.mod_one]
  | succ n ih =>
    intro t
    simp only [natToBytesLE, bytesToNat, ih]
    rw [pow_succ, mul_comm (256 ^ n) 256, Nat.mod_mul]

theorem natToBytesLE_length (n t : Nat) : (natToBytesLE n t).length = n := by
  induction n generalizing t with
  | zero => simp [natToBytesLE]
  | succ n ih => simp [natToBytesLE, ih]

theorem natToBytesLE_mem_lt (n t : Nat) : ∀ b ∈ natToBytesLE n t, b < 256 := by
  induction n generalizing t with
  | zero => simp [natToBytesLE]
  | succ n ih =>
    intro b hb
    simp only [natToBytesLE, List.mem_cons] at hb
    rcases hb with h | h
    · omega
    · exact ih (t / 256) b h

theorem natToBytesLE_inj {n t1 t2 : Nat} (h1 : t1 < 256 ^ n) (h2 : t2 < 256 ^ n)
    (h : natToBytesLE n t1 = natToBytesLE n t2) : t1 = t2 := by
  have e1 := bytesToNat_natToBytesLE n t1
  have e2 := bytesToNat_natToBytesLE n t2
  rw [h] at e1
  rw [Nat.mod_eq_of_lt h1] at e1
  rw [Nat.mod_eq_of_lt h2] at e2
  omega

/-! ## Base64 (models Python's `base64.b64encode` / `base64.b64decode`) -/

/-- The base64 alphabet character for a sextet value below 64. -/
def b64Char (n : Nat) : Char :=
  if n < 26 then Char.ofNat (65 + n)
  else if n < 52 then Char.ofNat (97 + (n - 26))
  else if n < 62 then Char.ofNat (48 + (n - 52))
  else if n = 62 then '+' else '/'

/-- The sextet value of a base64 alphabet character, `none` otherwise. -/
def b64CharVal (c : Char) : Option Nat :=
  let n := c.toNat
  if 65 ≤ n ∧ n ≤ 90 then some (n - 65)
  else if 97 ≤ n ∧ n ≤ 122 then some (n - 97 + 26)
  else if 48 ≤ n ∧ n ≤ 57 then some (n - 48 + 52)
  else if n = 43 then some 62
  else if n = 47 then some 63
  else none

/-- Standard base64 encoding of a byte list, three bytes per four characters,
with `=`-padding, as produced by Python's `base64.b64encode`. -/
def b64EncodeList : List Nat → List Char
  | [] => []
  | [a] => [b64Char (a / 4), b64Char (a % 4 * 16), '=', '=']
  | [a, b] => [b64Char (a / 4), b64Char (a % 4 * 16 + b / 16), b64Char (b % 16 * 4), '=']
  | a :: b :: c :: rest =>
    b64Char (a / 4) :: b64Char (a % 4 * 16 + b / 16) :: b64Char (b % 16 * 4 + c / 64) ::
      b64Char (c % 64) :: b64EncodeList rest

/-- Base64 decoding, four characters per three bytes; `none` models the
`binascii.Error` raised by `base64.b64decode` on malformed input. -/
def b64DecodeList : List Char → Option (List Nat)
  | [] => some []
  | c1 :: c2 :: c3 :: c4 :: rest =>
    match b64CharVal c1, b64CharVal c2 with
    | some v1, some v2 =>
      if c3 = '=' then
        if c4 = '=' ∧ rest = [] then some [v1 * 4 + v2 / 16] else none
      else
        match b64CharVal c3 with
        | some v3 =>
          if c4 = '=' then
            if rest = [] then some [v1 * 4 + v2 / 16, v2 % 16 * 16 + v3 / 4] else none
          else
            match b64CharVal c4 with
            | some v4 =>
              (b64DecodeList rest).map
                (fun bs => (v1 * 4 + v2 / 16) :: (v2 % 16 * 16 + v3 / 4) :: (v3 % 4 * 64 + v4) :: bs)
            | none => none
        | none => none
    | _, _ => none
  | _ => none

def b64encode (bs : List Nat) : String := String.mk (b64EncodeList bs)

def b64decode (s : String) : Option (List Nat) := b64DecodeList s.data

theorem b64CharVal_b64Char : ∀ n, n < 64 → b64CharVal (b64Char n) = some n := by decide

theorem b64Char_ne_eq : ∀ n, n < 64 → b64Char n ≠ '=' := by decide

theorem b64DecodeList_b64EncodeList :
    ∀ (bs : List Nat), (∀ b ∈ bs, b < 256) → b64DecodeList (b64EncodeList bs) = some bs := by
  intro bs
  induction bs using b64EncodeList.induct with
  | case1 => intro _; rfl
  | case2 a =>
    intro h
    have ha : a < 256 := h a (by simp)
    simp only [b64EncodeList, b64DecodeList]
    rw [b64CharVal_b64Char (a / 4) (by omega), b64CharVal_b64Char (a % 4 * 16) (by omega)]
    simp only [Option.some.injEq, List.cons.injEq, and_true, true_and, and_self, if_pos rfl,
      if_true]
    omega
  | case3 a b =>
    intro h
    have ha : a < 256 := h a (by simp)
    have hb : b < 256 := h b (by simp)
    simp only [b64EncodeList, b64DecodeList]
    rw [b64CharVal_b64Char (a / 4) (by omega), b64CharVal_b64Char (a % 4 * 16 + b / 16) (by omega)]
    simp only []
    rw [if_neg (b64Char_ne_eq (b % 16 * 4) (by omega))]
    rw [b64CharVal_b64Char (b % 16 * 4) (by omega)]
    simp only [Option.some.injEq, List.cons.injEq, and_true, true_and, and_self, if_pos rfl,
      if_true]
    constructor
    · omega
    · omega
  | case4 a b c rest ih =>
    intro h
    have ha : a < 256 := h a (by simp)
    have hb : b < 256 := h b (by simp)
    have hc : c < 256 := h c (by simp)
    have hr : ∀ x ∈ rest, x < 256 := fun x hx => h x (by simp [hx])
    simp only [b64EncodeList, b64DecodeList]
    rw [b64CharVal_b64Char (a / 4) (by omega), b64CharVal_b64Char (a % 4 * 16 + b / 16) (by omega)]
    simp only []
    rw [if_neg (b64Char_ne_eq (b % 16 * 4 + c / 64) (by omega))]
    rw [b64CharVal_b64Char (b % 16 * 4 + c / 64) (by omega)]
    simp only []
    rw [if_neg (b64Char_ne_eq (c % 64) (by omega))]
    rw [b64CharVal_b64Char (c % 64) (by omega)]
    rw [ih hr]
    simp only [Option.map_some', Option.some.injEq, List.cons.injEq]
    refine ⟨by omega, by omega, by omega, trivial⟩

theorem b64decode_b64encode (bs : List Nat) (h : ∀ b ∈ bs, b < 256) :
    b64decode (b64encode bs) = some bs :=
  b64DecodeList_b64EncodeList bs h

theorem b64encode_inj {bs1 bs2 : List Nat} (h1 : ∀ b ∈ bs1, b < 256) (h2 : ∀ b ∈ bs2, b < 256)
    (h : b64encode bs1 = b64encode bs2) : bs1 = bs2 := by
  have e1 := b64decode_b64encode bs1 h1
  have e2 := b64decode_b64encode bs2 h2
  rw [h] at e1
  rw [e1] at e2
  exact Option.some.inj e2

/-! ## Python `str.strip()` -/

def pyWhitespaceChar (c : Char) : Bool :=
  c = ' ' || c = '\t' || c = '\n' || c = '\r' || c = Char.ofNat 11 || c = Char.ofNat 12

/-- Models Python's `str.strip()` on the ASCII strings this program stores:
leading and trailing whitespace characters are removed. -/
def pyStrip (s : String) : String :=
  String.mk (((s.data.dropWhile pyWhitespaceChar).reverse.dropWhile pyWhitespaceChar).reverse)

theorem dropWhile_eq_self_of_not {α : Type} (p : α → Bool) :
    ∀ (l : List α), (∀ x ∈ l, p x = false) → l.dropWhile p = l := by
  intro l h
  cases l with
  | nil => rfl
  | cons a t => simp [List.dropWhile, h a (List.mem_cons_self a t)]

theorem pyStrip_of_no_ws (s : String) (h : ∀ c ∈ s.data, pyWhitespaceChar c = false) :
    pyStrip s = s := by
  unfold pyStrip
  rw [dropWhile_eq_self_of_not _ _ h,
    dropWhile_eq_self_of_not _ _ (fun x hx => h x (List.mem_reverse.mp hx)),
    List.reverse_reverse]

theorem b64Char_not_ws : ∀ n, n < 64 → pyWhitespaceChar (b64Char n) = false := by decide

theorem eq_char_not_ws : pyWhitespaceChar '=' = false := by decide

theorem b64EncodeList_no_ws :
    ∀ (bs : List Nat), (∀ b ∈ bs, b < 256) → ∀ c ∈ b64EncodeList bs, pyWhitespaceChar c = false := by
  intro bs
  induction bs using b64EncodeList.induct with
  | case1 => intro _ c hc; simp [b64EncodeList] at hc
  | case2 a =>
    intro h c hc
    have ha : a < 256 := h a (by simp)
    simp only [b64EncodeList, List.mem_cons, List.not_mem_nil, or_false] at hc
    rcases hc with rfl | rfl | rfl | rfl
    · exact b64Char_not_ws _ (by omega)
    · exact b64Char_not_ws _ (by omega)
    · exact eq_char_not_ws
    · exact eq_char_not_ws
  | case3 a b =>
    intro h c hc
    have ha : a < 256 := h a (by simp)
    have hb : b < 256 := h b (by simp)
    simp only [b64EncodeList, List.mem_cons, List.not_mem_nil, or_false] at hc
    rcases hc with rfl | rfl | rfl | rfl
    · exact b64Char_not_ws _ (by omega)
    · exact b64Char_not_ws _ (by omega)
    · exact b64Char_not_ws _ (by omega)
    · exact eq_char_not_ws
  | case4 a b c rest ih =>
    intro h x hx
    have ha : a < 256 := h a (by simp)
    have hb : b < 256 := h b (by simp)
    have hc : c < 256 := h c (by simp)
    have hr : ∀ y ∈ rest, y < 256 := fun y hy => h y (by simp [hy])
    simp only [b64EncodeList, List.mem_cons] at hx
    rcases hx with rfl | rfl | rfl | rfl | hx
    · exact b64Char_not_ws _ (by omega)
    · exact b64Char_not_ws _ (by omega)
    · exact b64Char_not_ws _ (by omega)
    · exact b64Char_not_ws _ (by omega)
    · exact ih hr x hx

theorem pyStrip_b64encode (bs : List Nat) (h : ∀ b ∈ bs, b < 256) :
    pyStrip (b64encode bs) = b64encode bs :=
  pyStrip_of_no_ws _ (b64EncodeList_no_ws bs h)

/-! ## UTF-8 (models Python's `str.encode` and `bytes.decode` with the
`utf-8` codec) -/

/-- UTF-8 encoding of a single Unicode scalar value (a Lean `Char`). -/
def utf8EncodeOne (c : Char) : List Nat :=
  if c.toNat < 128 then [c.toNat]
  else if c.toNat < 2048 then [192 + c.toNat / 64, 128 + c.toNat % 64]
  else if c.toNat < 65536 then [224 + c.toNat / 4096, 128 + c.toNat / 64 % 64, 128 + c.toNat % 64]
  else [240 + c.toNat / 262144, 128 + c.toNat / 4096 % 64, 128 + c.toNat / 64 % 64,
    128 + c.toNat % 64]

/-- UTF-8 encoding of a character list; Python's `plaintext.encode` applied
to the string with this character content. -/
def utf8Encode : List Char → List Nat
  | [] => []
  | c :: cs => utf8EncodeOne c ++ utf8Encode cs

/-- Decodes the continuation byte of a two-byte UTF-8 sequence with lead
byte `b1`, returning the code point and the remaining bytes. -/
def utf8Decode2 (b1 : Nat) : List Nat → Option (Nat × List Nat)
  | b2 :: t2 =>
    if 128 ≤ b2 ∧ b2 < 192 then some ((b1 - 192) * 64 + (b2 - 128), t2) else none
  | [] => none

/-- Decodes the continuation bytes of a three-byte UTF-8 sequence with lead
byte `b1`, rejecting overlong encodings and surrogate code points. -/
def utf8Decode3 (b1 : Nat) : List Nat → Option (Nat × List Nat)
  | b2 :: b3 :: t3 =>
    if (128 ≤ b2 ∧ b2 < 192) ∧ (128 ≤ b3 ∧ b3 < 192) then
      if 2048 ≤ (b1 - 224) * 4096 + (b2 - 128) * 64 + (b3 - 128) ∧
          ((b1 - 224) * 4096 + (b2 - 128) * 64 + (b3 - 128) < 55296 ∨
            57343 < (b1 - 224) * 4096 + (b2 - 128) * 64 + (b3 - 128)) then
        some ((b1 - 224) * 4096 + (b2 - 128) * 64 + (b3 - 128), t3)
      else none
    else none
  | _ => none

/-- Decodes the continuation bytes of a four-byte UTF-8 sequence with lead
byte `b1`, rejecting overlong encodings and out-of-range code points. -/
def utf8Decode4 (b1 : Nat) : List Nat → Option (Nat × List Nat)
  | b2 :: b3 :: b4 :: t4 =>
    if (128 ≤ b2 ∧ b2 < 192) ∧ (128 ≤ b3 ∧ b3 < 192) ∧ (128 ≤ b4 ∧ b4 < 192) then
      if 65536 ≤ (b1 - 240) * 262144 + (b2 - 128) * 4096 + (b3 - 128) * 64 + (b4 - 128) ∧
          (b1 - 240) * 262144 + (b2 - 128) * 4096 + (b3 - 128) * 64 + (b4 - 128) < 1114112 then
        some ((b1 - 240) * 262144 + (b2 - 128) * 4096 + (b3 - 128) * 64 + (b4 - 128), t4)
      else none
    else none
  | _ => none

/-- Decodes one UTF-8 scalar value whose lead byte is `b1` and whose
remaining input is `t`. -/
def utf8DecodeStep (b1 : Nat) (t : List Nat) : Option (Nat × List Nat) :=
  if b1 < 128 then some (b1, t)
  else if b1 < 194 then none
  else if b1 < 224 then utf8Decode2 b1 t
  else if b1 < 240 then utf8Decode3 b1 t
  else if b1 < 245 then utf8Decode4 b1 t
  else none

/-- Decodes up to `fuel` UTF-8 scalar values; each value consumes at least
one byte, so `fuel` bounded below by the byte count never exhausts. -/
def utf8DecodeLoop : Nat → List Nat → Option (List Char)
  | _, [] => some []
  | 0, _ :: _ => none
  | fuel + 1, b1 :: t =>
    match utf8DecodeStep b1 t with
    | none => none
    | some (v, rest) =>
      if Nat.isValidChar v then (utf8DecodeLoop fuel rest).map (fun cs => Char.ofNat v :: cs)
      else none

/-- Strict UTF-8 decoding of a byte list; `none` models the
`UnicodeDecodeError` raised by Python's `bytes.decode` on malformed input. -/
def utf8Decode (l : List Nat) : Option (List Char) := utf8DecodeLoop l.length l

theorem char_toNat_valid (c : Char) : Nat.isValidChar c.toNat := c.valid

theorem char_ofNat_toNat (c : Char) : Char.ofNat c.toNat = c := by
  have h : Nat.isValidChar c.toNat := c.valid
  apply Char.ext
  rw [Char.ofNat, dif_pos h]
  rfl

theorem utf8EncodeOne_lt (c : Char) : ∀ b ∈ utf8EncodeOne c, b < 256 := by
  have h : Nat.isValidChar c.toNat := c.valid
  have hv : c.toNat < 1114112 := by
    rcases h with h | ⟨_, h2⟩
    · omega
    · exact h2
  intro b hb
  unfold utf8EncodeOne at hb
  split at hb
  · simp at hb; omega
  · split at hb
    · simp at hb; rcases hb with rfl | rfl <;> omega
    · split at hb
      · simp at hb; rcases hb with rfl | rfl | rfl <;> omega
      · simp at hb; rcases hb with rfl | rfl | rfl | rfl <;> omega

theorem utf8Encode_lt : ∀ (cs : List Char), ∀ b ∈ utf8Encode cs, b < 256 := by
  intro cs
  induction cs with
  | nil => simp [utf8Encode]
  | cons c cs ih =>
    intro b hb
    simp only [utf8Encode, List.mem_append] at hb
    rcases hb with hb | hb
    · exact utf8EncodeOne_lt c b hb
    · exact ih b hb

theorem utf8DecodeStep_encodeOne (c : Char) (rest : List Nat) :
    ∃ b1 t0, utf8EncodeOne c = b1 :: t0 ∧
      utf8DecodeStep b1 (t0 ++ rest) = some (c.toNat, rest) := by
  have hval : Nat.isValidChar c.toNat := c.valid
  have hv : c.toNat < 1114112 := by
    rcases hval with h | ⟨_, h2⟩
    · omega
    · exact h2
  have hsur : c.toNat < 55296 ∨ 57343 < c.toNat := by
    rcases hval with h | ⟨h1, _⟩
    · exact Or.inl h
    · exact Or.inr h1
  unfold utf8EncodeOne
  by_cases h1 : c.toNat < 128
  · rw [if_pos h1]
    refine ⟨c.toNat, [], rfl, ?_⟩
    unfold utf8DecodeStep
    rw [if_pos h1]
    simp
  · rw [if_neg h1]
    by_cases h2 : c.toNat < 2048
    · rw [if_pos h2]
      refine ⟨_, _, rfl, ?_⟩
      unfold utf8DecodeStep
      rw [if_neg (by omega), if_neg (by omega), if_pos (by omega)]
      simp only [List.cons_append, List.nil_append, utf8Decode2]
      rw [if_pos (by constructor <;> omega)]
      simp only [Option.some.injEq, Prod.mk.injEq]
      exact ⟨by omega, trivial⟩
    · rw [if_neg h2]
      by_cases h3 : c.toNat < 65536
      · rw [if_pos h3]
        refine ⟨_, _, rfl, ?_⟩
        unfold utf8DecodeStep
        rw [if_neg (by omega), if_neg (by omega), if_neg (by omega), if_pos (by omega)]
        simp only [List.cons_append, List.nil_append, utf8Decode3]
        rw [if_pos (by refine ⟨⟨?_, ?_⟩, ?_, ?_⟩ <;> omega)]
        have hrec : (224 + c.toNat / 4096 - 224) * 4096 + (128 + c.toNat / 64 % 64 - 128) * 64 +
            (128 + c.toNat % 64 - 128) = c.toNat := by omega
        rw [hrec]
        rw [if_pos ⟨by omega, hsur⟩]
      · rw [if_neg h3]
        refine ⟨_, _, rfl, ?_⟩
        unfold utf8DecodeStep
        rw [if_neg (by omega), if_neg (by omega), if_neg (by omega), if_neg (by omega),
          if_pos (by omega)]
        simp only [List.cons_append, List.nil_append, utf8Decode4]
        rw [if_pos (by refine ⟨⟨?_, ?_⟩, ⟨?_, ?_⟩, ?_, ?_⟩ <;> omega)]
        have hrec : (240 + c.toNat / 262144 - 240) * 262144 +
            (128 + c.toNat / 4096 % 64 - 128) * 4096 + (128 + c.toNat / 64 % 64 - 128) * 64 +
            (128 + c.toNat % 64 - 128) = c.toNat := by omega
        rw [hrec]
        rw [if_pos ⟨by omega, hv⟩]

theorem utf8DecodeLoop_encode :
    ∀ (cs : List Char) (fuel : Nat), cs.length ≤ fuel →
      utf8DecodeLoop fuel (utf8Encode cs) = some cs := by
  intro cs
  induction cs with
  | nil => intro fuel _; cases fuel <;> rfl
  | cons c cs ih =>
    intro fuel hf
    obtain ⟨f, rfl⟩ : ∃ f, fuel = f + 1 := ⟨fuel - 1, by simp at hf; omega⟩
    have hfl : cs.length ≤ f := by simp at hf; omega
    obtain ⟨b1, t0, henc, hstep⟩ := utf8DecodeStep_encodeOne c (utf8Encode cs)
    show utf8DecodeLoop (f + 1) (utf8EncodeOne c ++ utf8Encode cs) = _
    rw [henc]
    simp only [List.cons_append, utf8DecodeLoop, List.append_eq]
    rw [hstep]
    simp only []
    rw [if_pos (char_toNat_valid c), ih f hfl, char_ofNat_toNat]
    rfl

theorem utf8Decode_utf8Encode (cs : List Char) : utf8Decode (utf8Encode cs) = some cs := by
  have hlen : cs.length ≤ (utf8Encode cs).length := by
    induction cs with
    | nil => simp [utf8Encode]
    | cons c cs ih =>
      have : 1 ≤ (utf8EncodeOne c).length := by
        unfold utf8EncodeOne
        split
        · simp
        split
        · simp
        split
        · simp
        · simp
      simp only [utf8Encode, List.length_append, List.length_cons]
      omega
  exact utf8DecodeLoop_encode cs _ hlen

/-! ## AES-256-GCM model

`crypto.py` delegates authenticated encryption to
`cryptography.hazmat.primitives.ciphers.aead.AESGCM`, an external library.
The model below keeps the structure ZeroEnv relies on: a CTR keystream
derived from key and nonce through a block cipher that is, for each key, a
bijection on 128-bit blocks; a ciphertext that is the XOR-masked plaintext
followed by a 16-byte authentication tag binding key, nonce and body; and
a decryption that recomputes and checks the tag, failing (`InvalidTag`)
on any mismatch. -/

def blockSize : Nat := 2 ^ 128

/-- Modelled: the AES-256 block encryption of the external library,
abstracted to the property used here — for a fixed key it is a bijection
on 128-bit blocks. -/
def blockE (key : List Nat) (b : Nat) : Nat := (b + bytesToNat key) % blockSize

/-- Byte `i` of the CTR keystream for `key` and `nonce`; GCM encrypts the
counter blocks `nonce ∥ ctr` with `ctr` counting from 2. -/
def ksByte (key nonce : List Nat) (i : Nat) : Nat :=
  blockE key (bytesToNat nonce * 2 ^ 32 + 2 + i / 16) / 256 ^ (i % 16) % 256

def ctrStream (key nonce : List Nat) (n : Nat) : List Nat :=
  (List.range n).map (ksByte key nonce)

/-- Modelled: the GHASH part of the GCM tag — a deterministic function of
key and ciphertext body into a 128-bit block. -/
def ghash (key body : List Nat) : Nat :=
  (body.foldl (fun acc b => (acc + b) * (blockE key 0 + 2) + 1) body.length) % blockSize

/-- The 16-byte GCM authentication tag: the encrypted initial counter
block (counter value 1) XORed with the GHASH of the body. -/
def gcmTag (key nonce body : List Nat) : List Nat :=
  natToBytesLE 16 (blockE key (bytesToNat nonce * 2 ^ 32 + 1) ^^^ ghash key body)

/-- Modelled: `AESGCM.encrypt(nonce, data, None)` of the external library:
keystream-masked plaintext followed by the 16-byte tag. -/
def aesgcmEncrypt (key nonce pt : List Nat) : List Nat :=
  List.zipWith Nat.xor pt (ctrStream key nonce pt.length) ++
    gcmTag key nonce (List.zipWith Nat.xor pt (ctrStream key nonce pt.length))

/-- Modelled: `AESGCM.decrypt(nonce, data, None)` of the external library;
`none` models the `InvalidTag` exception raised whenever the recomputed
tag does not match (tampered body, wrong nonce or wrong key). -/
def aesgcmDecrypt (key nonce ct : List Nat) : Option (List Nat) :=
  if ct.length < 16 then none
  else
    if ct.drop (ct.length - 16) = gcmTag key nonce (ct.take (ct.length - 16)) then
      some (List.zipWith Nat.xor (ct.take (ct.length - 16))
        (ctrStream key nonce (ct.take (ct.length - 16)).length))
    else none

theorem length_ctrStream (key nonce : List Nat) (n : Nat) : (ctrStream key nonce n).length = n := by
  simp [ctrStream]

theorem ksByte_lt (key nonce : List Nat) (i : Nat) : ksByte key nonce i < 256 :=
  Nat.mod_lt _ (by omega)

theorem ctrStream_mem_lt (key nonce : List Nat) (n : Nat) :
    ∀ b ∈ ctrStream key nonce n, b < 256 := by
  intro b hb
  simp only [ctrStream, List.mem_map] at hb
  obtain ⟨i, _, rfl⟩ := hb
  exact ksByte_lt key nonce i

theorem zipWith_xor_lt :
    ∀ (l1 l2 : List Nat), (∀ b ∈ l1, b < 256) → (∀ b ∈ l2, b < 256) →
      ∀ b ∈ List.zipWith Nat.xor l1 l2, b < 256 := by
  intro l1
  induction l1 with
  | nil => intro l2 _ _ b hb; simp at hb
  | cons a t ih =>
    intro l2 h1 h2 b hb
    cases l2 with
    | nil => simp at hb
    | cons a2 t2 =>
      simp only [List.zipWith_cons_cons, List.mem_cons] at hb
      rcases hb with rfl | hb
      · have ha : a < 2 ^ 8 := h1 a (by simp)
        have ha2 : a2 < 2 ^ 8 := h2 a2 (by simp)
        exact Nat.xor_lt_two_pow ha ha2
      · exact ih t2 (fun x hx => h1 x (by simp [hx])) (fun x hx => h2 x (by simp [hx])) b hb

theorem zipWith_xor_xor :
    ∀ (pt s : List Nat), pt.length = s.length →
      List.zipWith Nat.xor (List.zipWith Nat.xor pt s) s = pt := by
  intro pt
  induction pt with
  | nil => intro s _; simp
  | cons a t ih =>
    intro s hlen
    cases s with
    | nil => simp at hlen
    | cons b s =>
      simp only [List.zipWith_cons_cons]
      show ((a ^^^ b) ^^^ b) :: List.zipWith Nat.xor (List.zipWith Nat.xor t s) s = a :: t
      rw [Nat.xor_assoc, Nat.xor_self, Nat.xor_zero]
      rw [ih s (by simpa using hlen)]

theorem ghash_lt (key body : List Nat) : ghash key body < blockSize :=
  Nat.mod_lt _ (by unfold blockSize; positivity)

theorem blockE_lt (key : List Nat) (b : Nat) : blockE key b < blockSize :=
  Nat.mod_lt _ (by unfold blockSize; positivity)

theorem gcmTag_length (key nonce body : List Nat) : (gcmTag key nonce body).length = 16 :=
  natToBytesLE_length 16 _

theorem gcmTag_mem_lt (key nonce body : List Nat) : ∀ b ∈ gcmTag key nonce body, b < 256 :=
  natToBytesLE_mem_lt 16 _

theorem aesgcmEncrypt_mem_lt (key nonce pt : List Nat) (hpt : ∀ b ∈ pt, b < 256) :
    ∀ b ∈ aesgcmEncrypt key nonce pt, b < 256 := by
  intro b hb
  simp only [aesgcmEncrypt, List.mem_append] at hb
  rcases hb with hb | hb
  · exact zipWith_xor_lt pt _ hpt (ctrStream_mem_lt key nonce pt.length) b hb
  · exact gcmTag_mem_lt key nonce _ b hb

theorem aesgcmDecrypt_aesgcmEncrypt (key nonce pt : List Nat) :
    aesgcmDecrypt key nonce (aesgcmEncrypt key nonce pt) = some pt := by
  unfold aesgcmDecrypt aesgcmEncrypt
  have hbodylen : (List.zipWith Nat.xor pt (ctrStream key nonce pt.length)).length = pt.length := by
    rw [List.length_zipWith, length_ctrStream]
    omega
  have hlen : (List.zipWith Nat.xor pt (ctrStream key nonce pt.length) ++
      gcmTag key nonce (List.zipWith Nat.xor pt (ctrStream key nonce pt.length))).length =
      pt.length + 16 := by
    rw [List.length_append, hbodylen, gcmTag_length]
  rw [if_neg (by omega)]
  rw [hlen]
  have htake : List.take (pt.length + 16 - 16)
      (List.zipWith Nat.xor pt (ctrStream key nonce pt.length) ++
        gcmTag key nonce (List.zipWith Nat.xor pt (ctrStream key nonce pt.length))) =
      List.zipWith Nat.xor pt (ctrStream key nonce pt.length) :=
    List.take_left' (by omega)
  have hdrop : List.drop (pt.length + 16 - 16)
      (List.zipWith Nat.xor pt (ctrStream key nonce pt.length) ++
        gcmTag key nonce (List.zipWith Nat.xor pt (ctrStream key nonce pt.length))) =
      gcmTag key nonce (List.zipWith Nat.xor pt (ctrStream key nonce pt.length)) :=
    List.drop_left' (by omega)
  rw [htake, hdrop, if_pos rfl, hbodylen]
  rw [zipWith_xor_xor pt _ (by rw [length_ctrStream])]

theorem blockE_inj (key : List Nat) {b1 b2 : Nat} (h1 : b1 < blockSize) (h2 : b2 < blockSize)
    (h : blockE key b1 = blockE key b2) : b1 = b2 := by
  unfold blockE at h
  unfold blockSize at h h1 h2
  omega

theorem xor_cancel_right (a b g : Nat) (h : a ^^^ g = b ^^^ g) : a = b := by
  have ha : (a ^^^ g) ^^^ g = a := by rw [Nat.xor_assoc, Nat.xor_self, Nat.xor_zero]
  have hb : (b ^^^ g) ^^^ g = b := by rw [Nat.xor_assoc, Nat.xor_self, Nat.xor_zero]
  rw [← ha, ← hb, h]

theorem aesgcmEncrypt_nonce_inj (key pt n1 n2 : List Nat)
    (hl1 : n1.length = 12) (hl2 : n2.length = 12)
    (hb1 : ∀ b ∈ n1, b < 256) (hb2 : ∀ b ∈ n2, b < 256)
    (h : aesgcmEncrypt key n1 pt = aesgcmEncrypt key n2 pt) : n1 = n2 := by
  unfold aesgcmEncrypt at h
  have hlb : (List.zipWith Nat.xor pt (ctrStream key n1 pt.length)).length =
      (List.zipWith Nat.xor pt (ctrStream key n2 pt.length)).length := by
    rw [List.length_zipWith, List.length_zipWith, length_ctrStream, length_ctrStream]
  obtain ⟨hbody, htag⟩ := List.append_inj h hlb
  have hg : ghash key (List.zipWith Nat.xor pt (ctrStream key n1 pt.length)) =
      ghash key (List.zipWith Nat.xor pt (ctrStream key n2 pt.length)) := by rw [hbody]
  unfold gcmTag at htag
  have e12 : (256 : Nat) ^ 12 = 79228162514264337593543950336 := by norm_num
  have e32 : (2 : Nat) ^ 32 = 4294967296 := by norm_num
  have e128 : (2 : Nat) ^ 128 = 340282366920938463463374607431768211456 := by norm_num
  have hp : (256 : Nat) ^ 16 = blockSize := by unfold blockSize; norm_num
  have hbe1 : blockE key (bytesToNat n1 * 2 ^ 32 + 1) < 2 ^ 128 := by
    have := blockE_lt key (bytesToNat n1 * 2 ^ 32 + 1)
    unfold blockSize at this
    exact this
  have hbe2 : blockE key (bytesToNat n2 * 2 ^ 32 + 1) < 2 ^ 128 := by
    have := blockE_lt key (bytesToNat n2 * 2 ^ 32 + 1)
    unfold blockSize at this
    exact this
  have hgh1 : ghash key (List.zipWith Nat.xor pt (ctrStream key n1 pt.length)) < 2 ^ 128 := by
    have := ghash_lt key (List.zipWith Nat.xor pt (ctrStream key n1 pt.length))
    unfold blockSize at this
    exact this
  have hgh2 : ghash key (List.zipWith Nat.xor pt (ctrStream key n2 pt.length)) < 2 ^ 128 := by
    have := ghash_lt key (List.zipWith Nat.xor pt (ctrStream key n2 pt.length))
    unfold blockSize at this
    exact this
  have hx1 : blockE key (bytesToNat n1 * 2 ^ 32 + 1) ^^^
      ghash key (List.zipWith Nat.xor pt (ctrStream key n1 pt.length)) < 256 ^ 16 := by
    rw [hp]
    unfold blockSize
    exact Nat.xor_lt_two_pow hbe1 hgh1
  have hx2 : blockE key (bytesToNat n2 * 2 ^ 32 + 1) ^^^
      ghash key (List.zipWith Nat.xor pt (ctrStream key n2 pt.length)) < 256 ^ 16 := by
    rw [hp]
    unfold blockSize
    exact Nat.xor_lt_two_pow hbe2 hgh2
  have ht := natToBytesLE_inj hx1 hx2 htag
  rw [hg] at ht
  have hE := xor_cancel_right _ _ _ ht
  have hv1 : bytesToNat n1 < 256 ^ 12 := by
    have := bytesToNat_lt n1 hb1
    rwa [hl1] at this
  have hv2 : bytesToNat n2 < 256 ^ 12 := by
    have := bytesToNat_lt n2 hb2
    rwa [hl2] at this
  rw [e12] at hv1 hv2
  have hlt1 : bytesToNat n1 * 2 ^ 32 + 1 < blockSize := by
    unfold blockSize
    rw [e32, e128]
    omega
  have hlt2 : bytesToNat n2 * 2 ^ 32 + 1 < blockSize := by
    unfold blockSize
    rw [e32, e128]
    omega
  have hj := blockE_inj key hlt1 hlt2 hE
  rw [e32] at hj
  have hn : bytesToNat n1 = bytesToNat n2 := by omega
  exact bytesToNat_inj n1 n2 (by omega) hb1 hb2 hn

/-! ## Randomness: `os.urandom` as an explicit byte stream -/

/-- A source of random bytes: an infinite stream together with the current
position. Models the operating system entropy source behind `os.urandom`. -/
structure Rng where
  stream : Nat → Nat
  pos : Nat

/-- Models `os.urandom(n)`: the next `n` bytes of the stream. -/
def osUrandom (n : Nat) (r : Rng) : List Nat × Rng :=
  ((List.range n).map (fun i => r.stream (r.pos + i) % 256), ⟨r.stream, r.pos + n⟩)

theorem osUrandom_length (n : Nat) (r : Rng) : (osUrandom n r).1.length = n := by
  simp [osUrandom]

theorem osUrandom_mem_lt (n : Nat) (r : Rng) : ∀ b ∈ (osUrandom n r).1, b < 256 := by
  intro b hb
  simp only [osUrandom, List.mem_map] at hb
  obtain ⟨i, _, rfl⟩ := hb
  exact Nat.mod_lt _ (by omega)

/-! ## Python exceptions and exits -/

/-- The failure outcomes of the embedded code.  Each constructor names one
`raise` site (or `sys.exit` site) in `crypto.py`, `storage.py` or `cli.py`. -/
inductive PyErr
  /-- `ValueError("Master key must be 32 bytes")` in `ZeroEnvCrypto.__init__`. -/
  | valueErrorKeySize
  /-- `ValueError("Invalid security tier: ...")` in `derive_key` and `initialize`. -/
  | valueErrorInvalidTier
  /-- `ValueError("Salt required for '...' security tier")` in `derive_key`. -/
  | valueErrorSaltRequired
  /-- `ValueError("Salt must be 16 bytes")` in `derive_key`. -/
  | valueErrorSaltSize
  /-- `cryptography.exceptions.InvalidTag` from `AESGCM.decrypt`. -/
  | invalidTag
  /-- `binascii.Error` from `base64.b64decode`. -/
  | binasciiError
  /-- `UnicodeDecodeError` from `bytes.decode` with the utf-8 codec. -/
  | unicodeDecodeError
  /-- `FileNotFoundError` raised by `load_master_key` / `load_secrets_file`. -/
  | fileNotFound
  /-- `ui.print_error(...)` followed by `sys.exit(1)` in the CLI `init`
  command when the directory is already initialized. -/
  | exitAlreadyInitialized
deriving DecidableEq

/-! ## `crypto.py`: `ZeroEnvCrypto` -/

namespace ZeroEnvCrypto

def KEY_SIZE : Nat := 32

def NONCE_SIZE : Nat := 12

def SALT_SIZE : Nat := 16

/-- The `iterations` entry of `SECURITY_TIERS[tier]`; `none` when `tier`
is not a key of the `SECURITY_TIERS` dictionary. -/
def SECURITY_TIERS_iterations (tier : String) : Option Nat :=
  if tier = "standard" then some 0
  else if tier = "enhanced" then some 100000
  else if tier = "max" then some 500000
  else none

/-- `ZeroEnvCrypto.__init__`: rejects any key whose length is not 32. -/
def checkKey (master_key : List Nat) : Except PyErr (List Nat) :=
  if master_key.length ≠ KEY_SIZE then .error .valueErrorKeySize else .ok master_key

/-- The result dictionary of `ZeroEnvCrypto.encrypt`: base64-encoded
ciphertext and nonce. -/
structure EncryptedData where
  ciphertext : String
  nonce : String
deriving DecidableEq

/-- `ZeroEnvCrypto.encrypt`: draws a fresh 12-byte nonce from the random
source, encrypts the UTF-8 encoding of the plaintext with AES-256-GCM and
returns both fields base64-encoded. -/
def encrypt (key : List Nat) (plaintext : String) (r : Rng) : EncryptedData × Rng :=
  let drawn := osUrandom NONCE_SIZE r
  let ciphertext := aesgcmEncrypt key drawn.1 (utf8Encode plaintext.data)
  ({ ciphertext := b64encode ciphertext, nonce := b64encode drawn.1 }, drawn.2)

/-- `ZeroEnvCrypto.decrypt`: base64-decodes both fields, runs AES-256-GCM
decryption and verification, and UTF-8-decodes the plaintext. -/
def decrypt (key : List Nat) (encrypted_data : EncryptedData) : Except PyErr String :=
  match b64decode encrypted_data.ciphertext with
  | none => .error .binasciiError
  | some ciphertext =>
    match b64decode encrypted_data.nonce with
    | none => .error .binasciiError
    | some nonce =>
      match aesgcmDecrypt key nonce ciphertext with
      | none => .error .invalidTag
      | some plaintext =>
        match utf8Decode plaintext with
        | none => .error .unicodeDecodeError
        | some cs => .ok (String.mk cs)

/-- `ZeroEnvCrypto.generate_key`: 32 fresh random bytes. -/
def generate_key (r : Rng) : List Nat × Rng := osUrandom KEY_SIZE r

/-- `ZeroEnvCrypto.generate_salt`: 16 fresh random bytes. -/
def generate_salt (r : Rng) : List Nat × Rng := osUrandom SALT_SIZE r

/-- Modelled: `PBKDF2HMAC(SHA256, 32, salt, iterations).derive(master_key)`
of the external library — a deterministic function of master key, salt and
iteration count producing 32 bytes. -/
def pbkdf2_sha256 (master_key salt : List Nat) (iterations : Nat) : List Nat :=
  (List.range KEY_SIZE).map
    (fun i => (bytesToNat master_key + (i + 1) * (bytesToNat salt + 1) * (iterations + 1)) % 256)

/-- `ZeroEnvCrypto.derive_key`: tier dispatch exactly as in the source —
unknown tiers are rejected first; the `standard` tier (0 iterations)
returns the master key unchanged before any salt check; the other tiers
require a 16-byte salt and apply PBKDF2. -/
def derive_key (master_key : List Nat) (tier : String) (salt : Option (List Nat)) :
    Except PyErr (List Nat) :=
  match SECURITY_TIERS_iterations tier with
  | none => .error .valueErrorInvalidTier
  | some iterations =>
    if iterations = 0 then .ok master_key
    else
      match salt with
      | none => .error .valueErrorSaltRequired
      | some s =>
        if s.length ≠ SALT_SIZE then .error .valueErrorSaltSize
        else .ok (pbkdf2_sha256 master_key s iterations)

/-- `ZeroEnvCrypto.key_to_string`: base64 encoding of key bytes. -/
def key_to_string (key : List Nat) : String := b64encode key

/-- `ZeroEnvCrypto.string_to_key`: base64 decoding; `none` models the
`binascii.Error` raised on malformed input. -/
def string_to_key (key_string : String) : Option (List Nat) := b64decode key_string

end ZeroEnvCrypto

/-- `generate_master_key` (module-level function of `crypto.py`). -/
def generate_master_key (r : Rng) : List Nat × Rng := ZeroEnvCrypto.generate_key r

theorem decrypt_encrypt (key : List Nat) (plaintext : String) (r : Rng) :
    ZeroEnvCrypto.decrypt key (ZeroEnvCrypto.encrypt key plaintext r).1 = .ok plaintext := by
  unfold ZeroEnvCrypto.encrypt ZeroEnvCrypto.decrypt
  simp only []
  rw [b64decode_b64encode _ (aesgcmEncrypt_mem_lt _ _ _ (utf8Encode_lt plaintext.data))]
  rw [b64decode_b64encode _ (osUrandom_mem_lt ZeroEnvCrypto.NONCE_SIZE r)]
  simp only []
  rw [aesgcmDecrypt_aesgcmEncrypt]
  simp only []
  rw [utf8Decode_utf8Encode]

/-! ## `storage.py`: `SecretsStorage`

The two files of a store directory (`.secrets` and `.secrets.key`) are
modelled by `Fs`.  The record file is held in parsed form (`StoreData`,
the JSON document written by `json.dumps` and read back by `json.loads`);
the key file is held as its text.  Every write that `storage.py` performs
is additionally recorded as an `FsOp` event so that claims about the
write discipline can be stated.  `datetime.now().isoformat()` is passed
in as an explicit `now` argument. -/

/-- One value of the `secrets` mapping of the record file. -/
structure SecretRecord where
  ciphertext : String
  nonce : String
  updated_at : String
deriving DecidableEq

/-- The parsed JSON document of the `.secrets` record file.  `none` fields
model absent JSON keys (`security_tier` is absent in legacy files, `salt`
is absent for the `standard` tier).  The `secrets` mapping is an
association list in insertion order, keys unique, as a Python dict. -/
structure StoreData where
  version : String
  created_at : String
  security_tier : Option String
  salt : Option String
  secrets : List (String × SecretRecord)
deriving DecidableEq

/-- Python dict lookup `d[name]` / `name in d` on the secrets mapping. -/
def dictGet (name : String) : List (String × SecretRecord) → Option SecretRecord
  | [] => none
  | (k, v) :: rest => if k = name then some v else dictGet name rest

/-- Python dict update `d[name] = v`: replaces in place if present,
appends otherwise (insertion order is preserved). -/
def dictSet (name : String) (v : SecretRecord) :
    List (String × SecretRecord) → List (String × SecretRecord)
  | [] => [(name, v)]
  | (k, w) :: rest => if k = name then (name, v) :: rest else (k, w) :: dictSet name v rest

/-- Python dict deletion `del d[name]` (for `name` a present, unique key). -/
def dictDel (name : String) : List (String × SecretRecord) → List (String × SecretRecord)
  | [] => []
  | (k, w) :: rest => if k = name then rest else (k, w) :: dictDel name rest

/-- The two files the store owns. -/
inductive FileId
  /-- The `.secrets` record file. -/
  | secretsFile
  /-- The `.secrets.key` master-key file. -/
  | keyFile
deriving DecidableEq

/-- The content written by one file operation. -/
inductive FileContent
  /-- `json.dumps(data, indent=2)` of a whole record document. -/
  | jsonDoc (d : StoreData)
  /-- Plain text (the base64 master-key line). -/
  | text (s : String)
deriving DecidableEq

/-- One filesystem write event.  `Path.write_text` opens the destination
itself for writing, truncating it, and writes the new content in place;
`replaceFile` is the write-to-temporary-then-`os.replace` pattern, which
`storage.py` never uses. -/
inductive FsOp
  /-- `path.write_text(content)`: in-place truncate-and-write of `f`. -/
  | writeText (f : FileId) (c : FileContent)
  /-- Atomic replacement of `f` by a fully written temporary file. -/
  | replaceFile (f : FileId) (c : FileContent)
deriving DecidableEq

/-- The state of the store directory: the parsed record file and the text
of the key file, each `none` while the file does not exist. -/
structure Fs where
  secrets : Option StoreData
  key : Option String
deriving DecidableEq

namespace SecretsStorage

/-- `SecretsStorage.is_initialized`: both files exist. -/
def is_initialized (fs : Fs) : Bool := fs.secrets.isSome && fs.key.isSome

/-- `SecretsStorage.load_secrets_file`: read and parse `.secrets`,
raising `FileNotFoundError` when it does not exist. -/
def load_secrets_file (fs : Fs) : Except PyErr StoreData :=
  match fs.secrets with
  | none => .error .fileNotFound
  | some data => .ok data

/-- `SecretsStorage.save_secrets_file`: the call
`self.secrets_path.write_text(json.dumps(data, indent=2))` — a single
in-place write of the whole document to the record file. -/
def save_secrets_file (fs : Fs) (data : StoreData) : Fs × List FsOp :=
  ({ fs with secrets := some data }, [FsOp.writeText .secretsFile (.jsonDoc data)])

/-- `SecretsStorage.initialize`: validates the tier, writes the base64
master key to `.secrets.key`, builds the initial document (with a fresh
salt for non-`standard` tiers) and writes it to `.secrets`.  No check of
the existing directory state is performed.  (Named `initializeStore` here
because `initialize`, the source name, is a Lean keyword.) -/
def initializeStore (fs : Fs) (master_key : List Nat) (tier : String) (now : String) (r : Rng) :
    Except PyErr (Fs × List FsOp × Rng) :=
  if (ZeroEnvCrypto.SECURITY_TIERS_iterations tier).isNone then .error .valueErrorInvalidTier
  else
    let key_string := ZeroEnvCrypto.key_to_string master_key
    let fs1 : Fs := { fs with key := some key_string }
    let drawn :=
      if tier ≠ "standard" then
        let salted := ZeroEnvCrypto.generate_salt r
        (some (ZeroEnvCrypto.key_to_string salted.1), salted.2)
      else (none, r)
    let initial_data : StoreData :=
      { version := "1.0", created_at := now, security_tier := some tier,
        salt := drawn.1, secrets := [] }
    let saved := save_secrets_file fs1 initial_data
    .ok (saved.1, FsOp.writeText .keyFile (.text key_string) :: saved.2, drawn.2)

/-- `SecretsStorage.load_master_key`: raises `FileNotFoundError` when the
key file is absent, else strips and base64-decodes its content. -/
def load_master_key (fs : Fs) : Except PyErr (List Nat) :=
  match fs.key with
  | none => .error .fileNotFound
  | some key_string =>
    match ZeroEnvCrypto.string_to_key (pyStrip key_string) with
    | none => .error .binasciiError
    | some key => .ok key

/-- `SecretsStorage.get_security_tier`: `data.get("security_tier", "standard")`. -/
def get_security_tier (fs : Fs) : Except PyErr String :=
  (load_secrets_file fs).map (fun data => data.security_tier.getD "standard")

/-- `SecretsStorage.get_salt`: `data.get("salt")`, decoded when truthy
(Python's `if salt_string:` is false for both `None` and the empty
string). -/
def get_salt (fs : Fs) : Except PyErr (Option (List Nat)) :=
  (load_secrets_file fs).bind (fun data =>
    match data.salt with
    | some salt_string =>
      if salt_string ≠ "" then
        match ZeroEnvCrypto.string_to_key salt_string with
        | none => .error .binasciiError
        | some salt => .ok (some salt)
      else .ok none
    | none => .ok none)

/-- `SecretsStorage.load_encryption_key`: master key, tier and salt from
disk, then `derive_key`; each step's exception propagates. -/
def load_encryption_key (fs : Fs) : Except PyErr (List Nat) :=
  match load_master_key fs with
  | .error e => .error e
  | .ok master_key =>
    match get_security_tier fs with
    | .error e => .error e
    | .ok tier =>
      match get_salt fs with
      | .error e => .error e
      | .ok salt => ZeroEnvCrypto.derive_key master_key tier salt

/-- `SecretsStorage.add_secret`: loads the document, encrypts the value
with a fresh nonce, stores ciphertext, nonce and timestamp under `name`,
and saves the whole document. -/
def add_secret (fs : Fs) (key : List Nat) (name value : String) (now : String) (r : Rng) :
    Except PyErr (Fs × List FsOp × Rng) :=
  (load_secrets_file fs).map (fun data =>
    let enc := ZeroEnvCrypto.encrypt key value r
    let record : SecretRecord :=
      { ciphertext := enc.1.ciphertext, nonce := enc.1.nonce, updated_at := now }
    let saved := save_secrets_file fs { data with secrets := dictSet name record data.secrets }
    (saved.1, saved.2, enc.2))

/-- `SecretsStorage.get_secret`: `None` (here `Except.ok none`) when the
name is absent, else the decrypted value; decryption failures propagate. -/
def get_secret (fs : Fs) (key : List Nat) (name : String) : Except PyErr (Option String) :=
  (load_secrets_file fs).bind (fun data =>
    match dictGet name data.secrets with
    | none => .ok none
    | some enc =>
      (ZeroEnvCrypto.decrypt key { ciphertext := enc.ciphertext, nonce := enc.nonce }).map some)

/-- `SecretsStorage.list_secrets`: the names, no decryption. -/
def list_secrets (fs : Fs) : Except PyErr (List String) :=
  (load_secrets_file fs).map (fun data => data.secrets.map Prod.fst)

/-- `SecretsStorage.remove_secret`: returns `false` without writing when
the name is absent; otherwise deletes the entry and saves the document. -/
def remove_secret (fs : Fs) (name : String) : Except PyErr (Bool × Fs × List FsOp) :=
  (load_secrets_file fs).map (fun data =>
    if (dictGet name data.secrets).isNone then (false, fs, [])
    else
      let saved := save_secrets_file fs { data with secrets := dictDel name data.secrets }
      (true, saved.1, saved.2))

/-- Decrypts the records of the secrets mapping in order, as the `for`
loop of `get_all_secrets` does; the first raised exception aborts the
whole loop. -/
def decryptAll (key : List Nat) : List (String × SecretRecord) →
    Except PyErr (List (String × String))
  | [] => .ok []
  | (name, enc) :: rest =>
    (ZeroEnvCrypto.decrypt key { ciphertext := enc.ciphertext, nonce := enc.nonce }).bind
      (fun v => (decryptAll key rest).map (fun tail => (name, v) :: tail))

/-- `SecretsStorage.get_all_secrets`: decrypts every record; any failure
aborts the call with that exception. -/
def get_all_secrets (fs : Fs) (key : List Nat) : Except PyErr (List (String × String)) :=
  (load_secrets_file fs).bind (fun data => decryptAll key data.secrets)

end SecretsStorage

/-- The `init` command of `cli.py`: exits with an error — before doing
anything else — when `is_initialized()` holds, otherwise generates a
master key and calls `SecretsStorage.initialize`.  (The `.gitignore`
update touches neither store file and is not modelled.) -/
def cliInit (fs : Fs) (tier : String) (now : String) (r : Rng) :
    Except PyErr (Fs × List FsOp × Rng) :=
  if SecretsStorage.is_initialized fs then .error .exitAlreadyInitialized
  else
    let generated := generate_master_key r
    SecretsStorage.initializeStore fs generated.1 tier now generated.2

/-! ## Helper lemmas about the dict operations and the decryption loop -/

theorem dictGet_dictSet_self (name : String) (v : SecretRecord) :
    ∀ (l : List (String × SecretRecord)), dictGet name (dictSet name v l) = some v := by
  intro l
  induction l with
  | nil => simp [dictSet, dictGet]
  | cons p rest ih =>
    obtain ⟨k, w⟩ := p
    by_cases hk : k = name
    · simp [dictSet, hk, dictGet]
    · simp [dictSet, hk, dictGet, ih]

theorem dictGet_eq_none_of_not_mem (name : String) :
    ∀ (l : List (String × SecretRecord)), name ∉ l.map Prod.fst → dictGet name l = none := by
  intro l
  induction l with
  | nil => intro _; rfl
  | cons p rest ih =>
    obtain ⟨k, w⟩ := p
    intro h
    simp only [List.map_cons, List.mem_cons] at h
    push_neg at h
    have hk : ¬(k = name) := fun hk => h.1 hk.symm
    simp only [dictGet, if_neg hk]
    exact ih h.2

theorem dictGet_dictDel_self (name : String) :
    ∀ (l : List (String × SecretRecord)), (l.map Prod.fst).Nodup →
      dictGet name (dictDel name l) = none := by
  intro l
  induction l with
  | nil => intro _; rfl
  | cons p rest ih =>
    obtain ⟨k, w⟩ := p
    intro hnd
    simp only [List.map_cons, List.nodup_cons] at hnd
    by_cases hk : k = name
    · simp only [dictDel, if_pos hk]
      exact dictGet_eq_none_of_not_mem name rest (by rw [← hk]; exact hnd.1)
    · simp only [dictDel, if_neg hk, dictGet, if_neg hk]
      exact ih hnd.2

theorem decryptAll_error_of_mem (key : List Nat) :
    ∀ (l : List (String × SecretRecord)) (name : String) (enc : SecretRecord) (e : PyErr),
      (name, enc) ∈ l →
      ZeroEnvCrypto.decrypt key ⟨enc.ciphertext, enc.nonce⟩ = .error e →
      ∃ e2, SecretsStorage.decryptAll key l = .error e2 := by
  intro l
  induction l with
  | nil => intro name enc e h _; simp at h
  | cons p rest ih =>
    obtain ⟨n0, enc0⟩ := p
    intro name enc e hmem hdec
    rcases List.mem_cons.mp hmem with heq | hmem2
    · injection heq with hh1 hh2
      subst hh1
      subst hh2
      refine ⟨e, ?_⟩
      simp only [SecretsStorage.decryptAll, hdec, Except.bind]
    · rcases hdecHead : ZeroEnvCrypto.decrypt key ⟨enc0.ciphertext, enc0.nonce⟩ with e0 | v0
      · exact ⟨e0, by simp only [SecretsStorage.decryptAll, hdecHead, Except.bind]⟩
      · obtain ⟨e2, he2⟩ := ih name enc e hmem2 hdec
        refine ⟨e2, ?_⟩
        simp only [SecretsStorage.decryptAll, hdecHead, Except.bind, he2, Except.map]

theorem decryptAll_mem_of_error (key : List Nat) :
    ∀ (l : List (String × SecretRecord)) (e2 : PyErr),
      SecretsStorage.decryptAll key l = .error e2 →
      ∃ name enc, (name, enc) ∈ l ∧
        ZeroEnvCrypto.decrypt key ⟨enc.ciphertext, enc.nonce⟩ = .error e2 := by
  intro l
  induction l with
  | nil => intro e2 h; simp [SecretsStorage.decryptAll] at h
  | cons p rest ih =>
    obtain ⟨n0, enc0⟩ := p
    intro e2 h
    rcases hdecHead : ZeroEnvCrypto.decrypt key ⟨enc0.ciphertext, enc0.nonce⟩ with e0 | v0
    · simp only [SecretsStorage.decryptAll, hdecHead, Except.bind] at h
      injection h with he
      exact ⟨n0, enc0, by simp, by rw [hdecHead, he]⟩
    · simp only [SecretsStorage.decryptAll, hdecHead, Except.bind] at h
      rcases hrest : SecretsStorage.decryptAll key rest with er | vr
      · obtain ⟨name, enc, hmem, hdec⟩ := ih er hrest
        rw [hrest] at h
        simp only [Except.map] at h
        injection h with he
        exact ⟨name, enc, List.mem_cons_of_mem _ hmem, by rw [hdec, he]⟩
      · rw [hrest] at h
        simp [Except.map] at h

theorem decryptAll_ok_mem (key : List Nat) :
    ∀ (l : List (String × SecretRecord)) (m : List (String × String)),
      SecretsStorage.decryptAll key l = .ok m →
      ∀ name enc, (name, enc) ∈ l →
        ∃ v, ZeroEnvCrypto.decrypt key ⟨enc.ciphertext, enc.nonce⟩ = .ok v ∧ (name, v) ∈ m := by
  intro l
  induction l with
  | nil => intro m _ name enc h; simp at h
  | cons p rest ih =>
    obtain ⟨n0, enc0⟩ := p
    intro m h name enc hmem
    rcases hdecHead : ZeroEnvCrypto.decrypt key ⟨enc0.ciphertext, enc0.nonce⟩ with e0 | v0
    · simp only [SecretsStorage.decryptAll, hdecHead, Except.bind] at h
      exact absurd h (by simp)
    · simp only [SecretsStorage.decryptAll, hdecHead, Except.bind] at h
      rcases hrest : SecretsStorage.decryptAll key rest with er | vr
      · rw [hrest] at h
        simp [Except.map] at h
      · rw [hrest] at h
        simp only [Except.map] at h
        injection h with hm
        rcases List.mem_cons.mp hmem with heq | hmem2
        · injection heq with hh1 hh2
          subst hh1
          subst hh2
          exact ⟨v0, hdecHead, by rw [← hm]; simp⟩
        · obtain ⟨v, hv, hvm⟩ := ih vr hrest name enc hmem2
          exact ⟨v, hv, by rw [← hm]; exact List.mem_cons_of_mem _ hvm⟩

/-! ## Concrete fixtures used by the witnesses and counterexamples -/

/-- A deterministic stand-in for the entropy source: byte `i` is `i % 256`. -/
def idRng : Rng := ⟨fun i => i, 0⟩

def key32 : List Nat := List.replicate 32 0

def key32b : List Nat := List.replicate 32 1

/-- A freshly initialized store document (`standard` tier, no secrets). -/
def emptyDoc : StoreData :=
  { version := "1.0", created_at := "t0", security_tier := some "standard",
    salt := none, secrets := [] }

/-- A legacy store document: no `security_tier` field, no `salt` field. -/
def legacyDoc : StoreData :=
  { version := "1.0", created_at := "t0", security_tier := none,
    salt := none, secrets := [] }

/-- A ready (initialized) store directory holding `emptyDoc`. -/
def readyFs : Fs := ⟨some emptyDoc, some (ZeroEnvCrypto.key_to_string key32)⟩

/-- A well-formed base64 record whose tag does not verify under `key32`. -/
def badRecord : SecretRecord :=
  { ciphertext := b64encode (List.replicate 16 0),
    nonce := b64encode (List.replicate 12 0), updated_at := "t1" }

def corruptDoc : StoreData :=
  { version := "1.0", created_at := "t0", security_tier := some "standard",
    salt := none, secrets := [("K", badRecord)] }

def corruptFs : Fs := ⟨some corruptDoc, some (ZeroEnvCrypto.key_to_string key32)⟩

/-- The value of an `Except`, with a default for the error case. -/
def exceptGetD {ε α : Type} (x : Except ε α) (d : α) : α :=
  match x with
  | .ok v => v
  | .error _ => d

/-- The trace of filesystem writes of a storage operation result. -/
def trsOf (res : Except PyErr (Fs × List FsOp × Rng)) : List FsOp :=
  match res with
  | .ok x => x.2.1
  | .error _ => []

/-- Does the trace overwrite the record file in place (`write_text`)? -/
def writesSecretsInPlace (ops : List FsOp) : Bool :=
  ops.any (fun op =>
    match op with
    | .writeText .secretsFile _ => true
    | _ => false)

/-- Does the trace use the atomic write-temporary-then-replace pattern? -/
def usesReplace (ops : List FsOp) : Bool :=
  ops.any (fun op =>
    match op with
    | .replaceFile _ _ => true
    | _ => false)

/-- The spec's `InvalidConfiguration` error class: the two `ValueError`
raise sites of `derive_key` that concern the salt. -/
def isInvalidConfiguration (e : PyErr) : Prop :=
  e = .valueErrorSaltRequired ∨ e = .valueErrorSaltSize

/-! ## The claims -/

/-- Claim C1: for every UTF-8 string `s` and every 32-byte key `k`,
decrypting the result of encrypting `s` with a cipher engine constructed
from `k` (using the nonce and ciphertext that `encrypt` returned) yields
`s` again. -/
theorem claim_C1_roundtrip (s : String) (k : List Nat) (hk : k.length = 32) (r : Rng) :
    ZeroEnvCrypto.decrypt k (ZeroEnvCrypto.encrypt k s r).1 = Except.ok s :=
  decrypt_encrypt k s r

/-- Witness for C1 at a concrete string, key and random stream. -/
theorem claim_C1_roundtrip_witness :
    key32.length = 32 ∧
    ZeroEnvCrypto.decrypt key32 (ZeroEnvCrypto.encrypt key32 "secret value" idRng).1 =
      Except.ok "secret value" :=
  ⟨by decide, claim_C1_roundtrip "secret value" key32 (by decide) idRng⟩

/-- Claim C5: for every 32-byte master key `k` and every salt value
(present or absent), `derive_key(k, 'standard', salt)` returns `k`
itself, unchanged. -/
theorem claim_C5_standard_identity (mk : List Nat) (hk : mk.length = 32)
    (salt : Option (List Nat)) :
    ZeroEnvCrypto.derive_key mk "standard" salt = Except.ok mk := rfl

/-- Witness for C5 at a concrete key and a present salt. -/
theorem claim_C5_standard_identity_witness :
    key32.length = 32 ∧
    ZeroEnvCrypto.derive_key key32 "standard" (some [1, 2]) = Except.ok key32 :=
  ⟨by decide, claim_C5_standard_identity key32 (by decide) (some [1, 2])⟩

/-- Claim C6: for tiers `enhanced` and `max`, `derive_key` fails with an
`InvalidConfiguration` error (a salt-related `ValueError`) whenever the
salt is missing or its length is not exactly 16 bytes, and fails with an
`UnknownTier` error (the invalid-tier `ValueError`) for every tier name
outside the three known ones; in all these cases no key is returned. -/
theorem claim_C6_salt_and_tier_errors (mk : List Nat) (tier : String)
    (salt : Option (List Nat)) :
    ((tier = "enhanced" ∨ tier = "max") → salt = none →
      ZeroEnvCrypto.derive_key mk tier salt = .error .valueErrorSaltRequired ∧
      isInvalidConfiguration .valueErrorSaltRequired) ∧
    ((tier = "enhanced" ∨ tier = "max") → ∀ s, salt = some s → s.length ≠ 16 →
      ZeroEnvCrypto.derive_key mk tier salt = .error .valueErrorSaltSize ∧
      isInvalidConfiguration .valueErrorSaltSize) ∧
    (tier ≠ "standard" → tier ≠ "enhanced" → tier ≠ "max" →
      ZeroEnvCrypto.derive_key mk tier salt = .error .valueErrorInvalidTier) := by
  refine ⟨?_, ?_, ?_⟩
  · intro htier hsalt
    subst hsalt
    rcases htier with rfl | rfl
    · exact ⟨rfl, Or.inl rfl⟩
    · exact ⟨rfl, Or.inl rfl⟩
  · intro htier s hsalt hlen
    subst hsalt
    rcases htier with rfl | rfl
    · constructor
      · have hstep : ZeroEnvCrypto.derive_key mk "enhanced" (some s) =
            (if s.length ≠ 16 then .error .valueErrorSaltSize
              else .ok (ZeroEnvCrypto.pbkdf2_sha256 mk s 100000)) := rfl
        rw [hstep, if_pos hlen]
      · exact Or.inr rfl
    · constructor
      · have hstep : ZeroEnvCrypto.derive_key mk "max" (some s) =
            (if s.length ≠ 16 then .error .valueErrorSaltSize
              else .ok (ZeroEnvCrypto.pbkdf2_sha256 mk s 500000)) := rfl
        rw [hstep, if_pos hlen]
      · exact Or.inr rfl
  · intro h1 h2 h3
    unfold ZeroEnvCrypto.derive_key ZeroEnvCrypto.SECURITY_TIERS_iterations
    rw [if_neg h1, if_neg h2, if_neg h3]

/-- Witness for C6: missing salt, 1-byte salt, and an unknown tier name. -/
theorem claim_C6_salt_and_tier_errors_witness :
    (ZeroEnvCrypto.derive_key key32 "enhanced" none = .error .valueErrorSaltRequired ∧
      isInvalidConfiguration .valueErrorSaltRequired) ∧
    (ZeroEnvCrypto.derive_key key32 "max" (some [0]) = .error .valueErrorSaltSize ∧
      isInvalidConfiguration .valueErrorSaltSize) ∧
    ZeroEnvCrypto.derive_key key32 "pbkdf2" none = .error .valueErrorInvalidTier :=
  ⟨(claim_C6_salt_and_tier_errors key32 "enhanced" none).1 (Or.inl rfl) rfl,
    (claim_C6_salt_and_tier_errors key32 "max" (some [0])).2.1 (Or.inr rfl) [0] rfl (by decide),
    (claim_C6_salt_and_tier_errors key32 "pbkdf2" none).2.2 (by decide) (by decide) (by decide)⟩

/-- Claim C10: when `remove_secret` is called with a name absent from the
store, it performs no write at all — the result is `False`, the
filesystem state is returned unchanged and the write trace is empty. -/
theorem claim_C10_remove_absent_frame (fs : Fs) (data : StoreData) (name : String)
    (hfs : fs.secrets = some data) (habs : dictGet name data.secrets = none) :
    SecretsStorage.remove_secret fs name = .ok (false, fs, []) := by
  unfold SecretsStorage.remove_secret SecretsStorage.load_secrets_file
  rw [hfs]
  simp only [Except.map, habs, Option.isNone_none, if_true]

/-- Witness for C10 on a ready store with no secrets. -/
theorem claim_C10_remove_absent_frame_witness :
    SecretsStorage.remove_secret readyFs "ABSENT" = .ok (false, readyFs, []) :=
  claim_C10_remove_absent_frame readyFs emptyDoc "ABSENT" rfl rfl

/-- Claim C8: for a record file whose JSON document has no
`security_tier` field, `get_security_tier` returns `standard` (silently,
as a value, not an error), and the working key `load_encryption_key`
produces equals the master key itself — no derivation happens. -/
theorem claim_C8_legacy_default (fs : Fs) (data : StoreData) (mk : List Nat)
    (hfs : fs.secrets = some data) (htier : data.security_tier = none)
    (hsalt : data.salt = none) (hkey : fs.key = some (ZeroEnvCrypto.key_to_string mk))
    (hlen : mk.length = 32) (hb : ∀ b ∈ mk, b < 256) :
    SecretsStorage.get_security_tier fs = .ok "standard" ∧
    SecretsStorage.load_encryption_key fs = .ok mk := by
  have hload : SecretsStorage.load_secrets_file fs = .ok data := by
    unfold SecretsStorage.load_secrets_file
    rw [hfs]
  have htier2 : SecretsStorage.get_security_tier fs = .ok "standard" := by
    unfold SecretsStorage.get_security_tier
    rw [hload]
    simp only [Except.map, htier, Option.getD_none]
  refine ⟨htier2, ?_⟩
  have hmk : SecretsStorage.load_master_key fs = .ok mk := by
    unfold SecretsStorage.load_master_key
    rw [hkey]
    unfold ZeroEnvCrypto.string_to_key ZeroEnvCrypto.key_to_string
    simp only []
    rw [pyStrip_b64encode mk hb, b64decode_b64encode mk hb]
  have hsalt2 : SecretsStorage.get_salt fs = .ok none := by
    unfold SecretsStorage.get_salt
    rw [hload]
    simp only [Except.bind, hsalt]
  unfold SecretsStorage.load_encryption_key
  rw [hmk, htier2, hsalt2]
  rfl

/-- Witness for C8 on a concrete legacy store. -/
theorem claim_C8_legacy_default_witness :
    SecretsStorage.get_security_tier
      ⟨some legacyDoc, some (ZeroEnvCrypto.key_to_string key32)⟩ = .ok "standard" ∧
    SecretsStorage.load_encryption_key
      ⟨some legacyDoc, some (ZeroEnvCrypto.key_to_string key32)⟩ = .ok key32 :=
  claim_C8_legacy_default ⟨some legacyDoc, some (ZeroEnvCrypto.key_to_string key32)⟩
    legacyDoc key32 rfl rfl rfl rfl (by decide) (by decide)

/-- Claim C9: `get_all_secrets` decrypts every record; if decryption of
any single record fails, the whole call fails with a decryption failure
of one of the records and returns no mapping; in the success case every
record appears decrypted in the result — none is skipped or replaced by
a default. -/
theorem claim_C9_get_all_fail_fast (fs : Fs) (data : StoreData) (key : List Nat)
    (hfs : fs.secrets = some data) :
    (∀ name enc e, (name, enc) ∈ data.secrets →
      ZeroEnvCrypto.decrypt key ⟨enc.ciphertext, enc.nonce⟩ = .error e →
      ∃ e2, SecretsStorage.get_all_secrets fs key = .error e2) ∧
    (∀ e2, SecretsStorage.get_all_secrets fs key = .error e2 →
      ∃ name enc, (name, enc) ∈ data.secrets ∧
        ZeroEnvCrypto.decrypt key ⟨enc.ciphertext, enc.nonce⟩ = .error e2) ∧
    (∀ m, SecretsStorage.get_all_secrets fs key = .ok m →
      ∀ name enc, (name, enc) ∈ data.secrets →
        ∃ v, ZeroEnvCrypto.decrypt key ⟨enc.ciphertext, enc.nonce⟩ = .ok v ∧ (name, v) ∈ m) := by
  have hga : SecretsStorage.get_all_secrets fs key = SecretsStorage.decryptAll key data.secrets := by
    unfold SecretsStorage.get_all_secrets SecretsStorage.load_secrets_file
    rw [hfs]
    simp only [Except.bind]
  refine ⟨?_, ?_, ?_⟩
  · intro name enc e hmem hdec
    obtain ⟨e2, he2⟩ := decryptAll_error_of_mem key data.secrets name enc e hmem hdec
    exact ⟨e2, by rw [hga, he2]⟩
  · intro e2 h
    rw [hga] at h
    exact decryptAll_mem_of_error key data.secrets e2 h
  · intro m h name enc hmem
    rw [hga] at h
    exact decryptAll_ok_mem key data.secrets m h name enc hmem

/-- Witness for C9: a store with one corrupted record makes
`get_all_secrets` fail with the `InvalidTag` authentication failure. -/
theorem claim_C9_get_all_fail_fast_witness :
    SecretsStorage.get_all_secrets corruptFs key32 = .error PyErr.invalidTag := by
  obtain ⟨e2, he2⟩ := (claim_C9_get_all_fail_fast corruptFs corruptDoc key32 rfl).1 "K"
    badRecord PyErr.invalidTag (by decide) (by decide)
  have he : e2 = PyErr.invalidTag := by
    have h2 := he2.symm.trans
      (show SecretsStorage.get_all_secrets corruptFs key32 = .error PyErr.invalidTag by decide)
    exact Except.error.inj h2
  rw [← he]
  exact he2

/-- Claim C7: in a ready store, `add_secret` of name `K` with value `v`
followed by `get_secret K` returns `v`; `remove_secret K` followed by
`get_secret K` returns absence (`ok none`, not an exception); and
`remove_secret` on an absent name returns `false` rather than raising. -/
theorem claim_C7_crud (fs : Fs) (data : StoreData) (key : List Nat)
    (name value now : String) (r : Rng)
    (hfs : fs.secrets = some data)
    (hnd : (data.secrets.map Prod.fst).Nodup) :
    (∀ res, SecretsStorage.add_secret fs key name value now r = .ok res →
      SecretsStorage.get_secret res.1 key name = .ok (some value)) ∧
    (∀ res, SecretsStorage.remove_secret fs name = .ok res →
      SecretsStorage.get_secret res.2.1 key name = .ok none) ∧
    (dictGet name data.secrets = none →
      SecretsStorage.remove_secret fs name = .ok (false, fs, [])) := by
  have hload : SecretsStorage.load_secrets_file fs = .ok data := by
    unfold SecretsStorage.load_secrets_file
    rw [hfs]
  refine ⟨?_, ?_, ?_⟩
  · intro res hres
    unfold SecretsStorage.add_secret at hres
    rw [hload] at hres
    simp only [Except.map] at hres
    injection hres with hres
    subst hres
    unfold SecretsStorage.get_secret SecretsStorage.load_secrets_file
      SecretsStorage.save_secrets_file
    simp only [Except.bind]
    rw [dictGet_dictSet_self]
    simp only []
    have heta : (⟨(ZeroEnvCrypto.encrypt key value r).1.ciphertext,
        (ZeroEnvCrypto.encrypt key value r).1.nonce⟩ : ZeroEnvCrypto.EncryptedData) =
        (ZeroEnvCrypto.encrypt key value r).1 := rfl
    rw [heta, decrypt_encrypt]
    rfl
  · intro res hres
    unfold SecretsStorage.remove_secret at hres
    rw [hload] at hres
    simp only [Except.map] at hres
    injection hres with hres
    rcases hdg : dictGet name data.secrets with _ | enc
    · rw [hdg] at hres
      simp only [Option.isNone_none, if_true] at hres
      subst hres
      unfold SecretsStorage.get_secret SecretsStorage.load_secrets_file
      rw [hfs]
      simp only [Except.bind]
      rw [hdg]
    · rw [hdg] at hres
      simp only [Option.isNone_some] at hres
      rw [if_neg (by simp)] at hres
      subst hres
      unfold SecretsStorage.get_secret SecretsStorage.load_secrets_file
        SecretsStorage.save_secrets_file
      simp only [Except.bind]
      rw [dictGet_dictDel_self name data.secrets hnd]
  · intro habs
    unfold SecretsStorage.remove_secret
    rw [hload]
    simp only [Except.map, habs, Option.isNone_none, if_true]

/-- The store obtained by adding secret `K` (value `v`) to `readyFs`. -/
def addedRes : Fs × List FsOp × Rng :=
  exceptGetD (SecretsStorage.add_secret readyFs key32 "K" "v" "t2" idRng)
    (⟨none, none⟩, [], idRng)

/-- The document of `addedRes`. -/
def addedDoc : StoreData := (addedRes.1.secrets).getD emptyDoc

/-- The result of removing `K` from the store of `addedRes`. -/
def removedRes : Bool × Fs × List FsOp :=
  exceptGetD (SecretsStorage.remove_secret addedRes.1 "K") (false, ⟨none, none⟩, [])

/-- Witness for C7: add then get, remove then get, remove-absent. -/
theorem claim_C7_crud_witness :
    SecretsStorage.get_secret addedRes.1 key32 "K" = .ok (some "v") ∧
    SecretsStorage.get_secret removedRes.2.1 key32 "K" = .ok none ∧
    SecretsStorage.remove_secret readyFs "NOPE" = .ok (false, readyFs, []) := by
  have h1 := claim_C7_crud readyFs emptyDoc key32 "K" "v" "t2" idRng rfl (by decide)
  have h2 := claim_C7_crud addedRes.1 addedDoc key32 "K" "v" "t3" idRng rfl (by decide)
  exact ⟨h1.1 addedRes rfl, h2.2.1 removedRes rfl, h1.2.2 (by decide)⟩

/-- The trace of filesystem writes of a `remove_secret` result. -/
def trsOfRm (res : Except PyErr (Bool × Fs × List FsOp)) : List FsOp :=
  match res with
  | .ok x => x.2.2
  | .error _ => []

/-- The document `add_secret` writes: the loaded document with the newly
encrypted record stored under `name`. -/
def addedDocOf (data : StoreData) (key : List Nat) (name value now : String) (r : Rng) :
    StoreData :=
  { data with secrets := dictSet name
                  { ciphertext := (ZeroEnvCrypto.encrypt key value r).1.ciphertext,
                    nonce := (ZeroEnvCrypto.encrypt key value r).1.nonce,
                    updated_at := now } data.secrets }

/-- The document `remove_secret` writes when the name is present. -/
def removedDocOf (data : StoreData) (name : String) : StoreData :=
  { data with secrets := dictDel name data.secrets }

/-- The initial document `initialize` writes. -/
def initDocOf (tier now : String) (r : Rng) : StoreData :=
  { version := "1.0", created_at := now, security_tier := some tier,
    salt := if tier ≠ "standard" then
              some (ZeroEnvCrypto.key_to_string (ZeroEnvCrypto.generate_salt r).1)
            else none,
    secrets := [] }

/-- Counterexample to claim C2 as stated: the mutating operations do
overwrite the record file in place with `write_text` and never use a
write-temporary-then-rename pattern.  Shown on concrete calls of
`add_secret`, `remove_secret` (present name) and `initializeStore`. -/
theorem claim_C2_counterexample :
    writesSecretsInPlace (trsOf (SecretsStorage.add_secret readyFs key32 "K" "v" "t" idRng)) =
      true ∧
    usesReplace (trsOf (SecretsStorage.add_secret readyFs key32 "K" "v" "t" idRng)) = false ∧
    writesSecretsInPlace (trsOfRm (SecretsStorage.remove_secret corruptFs "K")) = true ∧
    usesReplace (trsOfRm (SecretsStorage.remove_secret corruptFs "K")) = false ∧
    writesSecretsInPlace
      (trsOf (SecretsStorage.initializeStore ⟨none, none⟩ key32 "standard" "t0" idRng)) = true ∧
    usesReplace
      (trsOf (SecretsStorage.initializeStore ⟨none, none⟩ key32 "standard" "t0" idRng)) =
      false := by
  decide

/-- Claim C2, amended: every mutating store operation rewrites the whole
StoreFile, but by a single direct in-place `write_text` of the full new
document to the record file (plus the key-file `write_text` for
`initialize`); no temporary file and no atomic rename/replace is used. -/
theorem claim_C2_amended (fs : Fs) (data : StoreData) (key mk2 : List Nat)
    (name value now tier : String) (r : Rng)
    (hfs : fs.secrets = some data)
    (htier : (ZeroEnvCrypto.SECURITY_TIERS_iterations tier).isSome = true) :
    SecretsStorage.add_secret fs key name value now r = .ok
      ({ fs with secrets := some (addedDocOf data key name value now r) },
        [FsOp.writeText .secretsFile (.jsonDoc (addedDocOf data key name value now r))],
        (ZeroEnvCrypto.encrypt key value r).2) ∧
    (dictGet name data.secrets ≠ none →
      SecretsStorage.remove_secret fs name = .ok
        (true, { fs with secrets := some (removedDocOf data name) },
          [FsOp.writeText .secretsFile (.jsonDoc (removedDocOf data name))])) ∧
    SecretsStorage.initializeStore fs mk2 tier now r = .ok
      ({ secrets := some (initDocOf tier now r),
         key := some (ZeroEnvCrypto.key_to_string mk2) },
        [FsOp.writeText .keyFile (.text (ZeroEnvCrypto.key_to_string mk2)),
          FsOp.writeText .secretsFile (.jsonDoc (initDocOf tier now r))],
        if tier ≠ "standard" then (ZeroEnvCrypto.generate_salt r).2 else r) := by
  have hload : SecretsStorage.load_secrets_file fs = .ok data := by
    unfold SecretsStorage.load_secrets_file
    rw [hfs]
  refine ⟨?_, ?_, ?_⟩
  · unfold SecretsStorage.add_secret
    rw [hload]
    rfl
  · intro hpres
    unfold SecretsStorage.remove_secret
    rw [hload]
    simp only [Except.map]
    rw [if_neg (by simp [Option.isNone_iff_eq_none, hpres])]
    rfl
  · have hn : (ZeroEnvCrypto.SECURITY_TIERS_iterations tier).isNone = false := by
      rcases h : ZeroEnvCrypto.SECURITY_TIERS_iterations tier with _ | its
      · rw [h] at htier
        simp at htier
      · rfl
    unfold SecretsStorage.initializeStore
    rw [if_neg (by rw [hn]; simp)]
    unfold initDocOf
    by_cases hstd : tier = "standard"
    · subst hstd
      rfl
    · simp only [SecretsStorage.save_secrets_file, if_pos hstd]

/-- The record added by the C2 witness call. -/
def addedRec2 : SecretRecord :=
  { ciphertext := (ZeroEnvCrypto.encrypt key32 "v" idRng).1.ciphertext,
    nonce := (ZeroEnvCrypto.encrypt key32 "v" idRng).1.nonce, updated_at := "t4" }

/-- The document written by the C2 witness call. -/
def addedDoc2 : StoreData := { emptyDoc with secrets := dictSet "K2" addedRec2 emptyDoc.secrets }

/-- Witness for the amended C2 on concrete calls. -/
theorem claim_C2_amended_witness :
    SecretsStorage.add_secret readyFs key32 "K2" "v" "t4" idRng = .ok
      ({ readyFs with secrets := some addedDoc2 },
        [FsOp.writeText .secretsFile (.jsonDoc addedDoc2)],
        (ZeroEnvCrypto.encrypt key32 "v" idRng).2) ∧
    SecretsStorage.remove_secret { readyFs with secrets := some addedDoc2 } "K2" = .ok
      (true, { readyFs with secrets := some (removedDocOf addedDoc2 "K2") },
        [FsOp.writeText .secretsFile (.jsonDoc (removedDocOf addedDoc2 "K2"))]) ∧
    SecretsStorage.initializeStore readyFs key32b "standard" "t5" idRng = .ok
      ({ secrets := some (initDocOf "standard" "t5" idRng),
         key := some (ZeroEnvCrypto.key_to_string key32b) },
        [FsOp.writeText .keyFile (.text (ZeroEnvCrypto.key_to_string key32b)),
          FsOp.writeText .secretsFile (.jsonDoc (initDocOf "standard" "t5" idRng))],
        idRng) := by
  have h1 := claim_C2_amended readyFs emptyDoc key32 key32b "K2" "v" "t4" "standard" idRng
    rfl rfl
  have h2 := claim_C2_amended { readyFs with secrets := some addedDoc2 } addedDoc2 key32
    key32b "K2" "v" "t4" "standard" idRng rfl rfl
  refine ⟨h1.1, h2.2.1 (by decide), ?_⟩
  have h3 := (claim_C2_amended readyFs emptyDoc key32 key32b "K2" "v" "t5" "standard" idRng
    rfl rfl).2.2
  simpa using h3

/-- Counterexample to claim C3 as stated: on a directory where both
files exist, `SecretsStorage.initializeStore` does not fail — it
succeeds and overwrites both files, replacing the existing master key.
(The `AlreadyInitialized` rejection lives in the CLI `init` command,
not in the core operation.) -/
theorem claim_C3_counterexample :
    SecretsStorage.is_initialized readyFs = true ∧
    SecretsStorage.initializeStore readyFs key32b "standard" "t9" idRng = .ok
      ({ secrets := some (initDocOf "standard" "t9" idRng),
         key := some (ZeroEnvCrypto.key_to_string key32b) },
        [FsOp.writeText .keyFile (.text (ZeroEnvCrypto.key_to_string key32b)),
          FsOp.writeText .secretsFile (.jsonDoc (initDocOf "standard" "t9" idRng))],
        idRng) ∧
    some (ZeroEnvCrypto.key_to_string key32b) ≠ readyFs.key := by
  refine ⟨rfl, rfl, by decide⟩

/-- Claim C3, amended: the `AlreadyInitialized` rejection happens in the
CLI `init` command, which exits with an error and performs no write when
`is_initialized()` holds, leaving both files unchanged; the core
`SecretsStorage.initialize` itself performs no such check and, for any
valid tier, succeeds and overwrites both files. -/
theorem claim_C3_amended (fs : Fs) (mk : List Nat) (tier now : String) (r : Rng)
    (hinit : SecretsStorage.is_initialized fs = true)
    (htier : (ZeroEnvCrypto.SECURITY_TIERS_iterations tier).isSome = true) :
    cliInit fs tier now r = .error .exitAlreadyInitialized ∧
    ∃ fs2 ops r2, SecretsStorage.initializeStore fs mk tier now r = .ok (fs2, ops, r2) ∧
      fs2.key = some (ZeroEnvCrypto.key_to_string mk) ∧
      fs2.secrets = some (initDocOf tier now r) := by
  constructor
  · unfold cliInit
    rw [if_pos hinit]
  · have hn : (ZeroEnvCrypto.SECURITY_TIERS_iterations tier).isNone = false := by
      rcases h : ZeroEnvCrypto.SECURITY_TIERS_iterations tier with _ | its
      · rw [h] at htier
        simp at htier
      · rfl
    unfold SecretsStorage.initializeStore
    rw [if_neg (by rw [hn]; simp)]
    unfold initDocOf
    by_cases hstd : tier = "standard"
    · subst hstd
      exact ⟨_, _, _, rfl, rfl, rfl⟩
    · refine ⟨_, _, _, rfl, rfl, ?_⟩
      simp only [SecretsStorage.save_secrets_file, if_pos hstd]

/-- Witness for the amended C3: the CLI rejects an initialized store
while the core operation succeeds on the same store. -/
theorem claim_C3_amended_witness :
    cliInit readyFs "standard" "t6" idRng = .error .exitAlreadyInitialized ∧
    (SecretsStorage.initializeStore readyFs key32b "standard" "t6" idRng).isOk = true := by
  have h := claim_C3_amended readyFs key32b "standard" "t6" idRng rfl rfl
  refine ⟨h.1, ?_⟩
  obtain ⟨fs2, ops, r2, heq, _, _⟩ := h.2
  rw [heq]
  rfl

/-- Claim C4: two calls of `encrypt` on the same plaintext under the same
key draw their nonces from disjoint fresh segments of the random source;
whenever the two independent 12-byte draws differ (which a cryptographic
RNG guarantees with overwhelming probability), the two calls produce
different nonces and different ciphertexts. -/
theorem claim_C4_nonce_uniqueness (k : List Nat) (s : String) (r : Rng)
    (hk : k.length = 32)
    (hdraw : (osUrandom 12 r).1 ≠ (osUrandom 12 (osUrandom 12 r).2).1) :
    (ZeroEnvCrypto.encrypt k s r).1.nonce ≠
      (ZeroEnvCrypto.encrypt k s (ZeroEnvCrypto.encrypt k s r).2).1.nonce ∧
    (ZeroEnvCrypto.encrypt k s r).1.ciphertext ≠
      (ZeroEnvCrypto.encrypt k s (ZeroEnvCrypto.encrypt k s r).2).1.ciphertext := by
  have hn1 : (ZeroEnvCrypto.encrypt k s r).1.nonce = b64encode (osUrandom 12 r).1 := rfl
  have hn2 : (ZeroEnvCrypto.encrypt k s (ZeroEnvCrypto.encrypt k s r).2).1.nonce =
      b64encode (osUrandom 12 (osUrandom 12 r).2).1 := rfl
  have hc1 : (ZeroEnvCrypto.encrypt k s r).1.ciphertext =
      b64encode (aesgcmEncrypt k (osUrandom 12 r).1 (utf8Encode s.data)) := rfl
  have hc2 : (ZeroEnvCrypto.encrypt k s (ZeroEnvCrypto.encrypt k s r).2).1.ciphertext =
      b64encode (aesgcmEncrypt k (osUrandom 12 (osUrandom 12 r).2).1 (utf8Encode s.data)) := rfl
  constructor
  · rw [hn1, hn2]
    intro h
    exact hdraw (b64encode_inj (osUrandom_mem_lt 12 r) (osUrandom_mem_lt 12 _) h)
  · rw [hc1, hc2]
    intro h
    have hct := b64encode_inj
      (aesgcmEncrypt_mem_lt _ _ _ (utf8Encode_lt s.data))
      (aesgcmEncrypt_mem_lt _ _ _ (utf8Encode_lt s.data)) h
    exact hdraw (aesgcmEncrypt_nonce_inj k (utf8Encode s.data) _ _
      (osUrandom_length 12 r) (osUrandom_length 12 _)
      (osUrandom_mem_lt 12 r) (osUrandom_mem_lt 12 _) hct)

/-- Witness for C4 at a concrete key, plaintext and random stream whose
two successive 12-byte draws differ. -/
theorem claim_C4_nonce_uniqueness_witness :
    key32.length = 32 ∧
    (osUrandom 12 idRng).1 ≠ (osUrandom 12 (osUrandom 12 idRng).2).1 ∧
    (ZeroEnvCrypto.encrypt key32 "dup" idRng).1.nonce ≠
      (ZeroEnvCrypto.encrypt key32 "dup" (ZeroEnvCrypto.encrypt key32 "dup" idRng).2).1.nonce ∧
    (ZeroEnvCrypto.encrypt key32 "dup" idRng).1.ciphertext ≠
      (ZeroEnvCrypto.encrypt key32 "dup"
        (ZeroEnvCrypto.encrypt key32 "dup" idRng).2).1.ciphertext :=
  ⟨by decide, by decide,
    (claim_C4_nonce_uniqueness key32 "dup" idRng (by decide) (by decide)).1,
    (claim_C4_nonce_uniqueness key32 "dup" idRng (by decide) (by decide)).2⟩

end ZeroEnv
